import Mathlib

/-!
Verification of the MCP memo access layer of the memos repository
(`server/router/mcp/tools_memo.go`, `resources_memo.go`, and the tag tool).

The Go code is shallowly embedded: store rows become Lean structures, the
string-typed store constants (`store.Visibility`, `store.RowStatus`) stay
strings so that unknown visibility values remain representable, handlers
become pure functions threading an explicit store state, and the small set
of store operations this layer consumes (which live outside the embedded
sources) are modelled from the specification's store contract.
-/

namespace Memos

/-- The visibility constant `store.Public`. -/
def Public : String := "PUBLIC"

/-- The visibility constant `store.Protected`. -/
def Protected : String := "PROTECTED"

/-- The visibility constant `store.Private`. -/
def Private : String := "PRIVATE"

/-- The row-status constant `store.Normal`. -/
def Normal : String := "NORMAL"

/-- The row-status constant `store.Archived`. -/
def Archived : String := "ARCHIVED"

/-- The relation-type constant `store.MemoRelationComment`. -/
def MemoRelationComment : String := "COMMENT"

/-- The four content-shape flags of `storepb.MemoPayload.Property`. -/
structure MemoPayloadProperty where
  hasLink : Bool
  hasTaskList : Bool
  hasCode : Bool
  hasIncompleteTasks : Bool
deriving DecidableEq, Repr

/-- `storepb.MemoPayload`: derived tags plus optional content-shape flags. -/
structure MemoPayload where
  tags : List String
  property : Option MemoPayloadProperty
deriving DecidableEq, Repr

/-- A `store.Memo` row. `visibility` and `rowStatus` are strings, exactly as
in the Go store, so unknown visibility values are representable. -/
structure Memo where
  id : Int
  uid : String
  creatorID : Int
  createdTs : Int
  updatedTs : Int
  rowStatus : String
  content : String
  visibility : String
  pinned : Bool
  payload : Option MemoPayload
  parentUID : Option String
deriving DecidableEq, Repr

/-- A `store.MemoRelation` edge. -/
structure MemoRelation where
  memoID : Int
  relatedMemoID : Int
  type : String
deriving DecidableEq, Repr

/-- The RE2 whitespace class matched by the regex in tools_memo.go
(Go regexp Perl class backslash-s). -/
def goIsSpace (c : Char) : Bool :=
  c == ' ' || c == '\t' || c == '\n' || c == '\r' || c == '\x0c'

/-- The character class of the first tag character in the regex. -/
def isTagStart (c : Char) : Bool :=
  ('A' ≤ c && c ≤ 'Z') || ('a' ≤ c && c ≤ 'z')

/-- A character that may continue a tag: non-whitespace and not a hash. -/
def isTagChar (c : Char) : Bool :=
  !goIsSpace c && c != '#'

/-- The matcher of the regex used by `extractTags` in tools_memo.go,
with Go `FindAllStringSubmatch` semantics: scan left to right; a match needs
a hash at start-of-text or right after whitespace, followed by a letter; the
captured tag is the maximal run of non-whitespace non-hash characters; the
scan resumes right after the tag (non-overlapping matches). `atBoundary`
records whether the current position is the start of the text or preceded by
whitespace. The fuel argument only bounds recursion; any fuel at least the
list length yields the full scan. -/
def scanTags : Nat → List Char → Bool → List String
  | 0, _, _ => []
  | _ + 1, [], _ => []
  | fuel + 1, c :: rest, atBoundary =>
    if c == '#' && atBoundary && (match rest with
        | c2 :: _ => isTagStart c2
        | [] => false) then
      (rest.takeWhile isTagChar).asString ::
        scanTags fuel (rest.dropWhile isTagChar) false
    else
      scanTags fuel rest (goIsSpace c)

/-- The deduplication loop of `extractTags`: keep the first occurrence of
each tag, in order, mirroring the `seen` map in the Go code. -/
def dedupSeen : List String → List String → List String
  | [], _ => []
  | t :: rest, seen =>
    if t ∈ seen then dedupSeen rest seen else t :: dedupSeen rest (t :: seen)

/-- `extractTags` from tools_memo.go: all regex matches in order,
deduplicated case-sensitively keeping first occurrences. -/
def extractTags (content : String) : List String :=
  dedupSeen (scanTags content.length content.toList true) []

/-- `buildPayload` from tools_memo.go: `none` when no tags are found, so the
store omits the payload entirely. -/
def buildPayload (content : String) : Option MemoPayload :=
  if (extractTags content).length = 0 then none
  else some { tags := extractTags content, property := none }

/-- `checkMemoAccess` from tools_memo.go: returns `some err` when the caller
may not read the memo, `none` when access is granted. `userID = 0` is the
anonymous caller. The `default` branch of the Go switch (public and any
unknown visibility) allows. -/
def checkMemoAccess (memo : Memo) (userID : Int) : Option String :=
  if memo.visibility = Protected then
    if userID = 0 then some "permission denied" else none
  else if memo.visibility = Private then
    if memo.creatorID ≠ userID then some "permission denied" else none
  else none

/-- The serialisable `propertyJSON` shape from tools_memo.go. -/
structure PropertyJSON where
  hasLink : Bool
  hasTaskList : Bool
  hasCode : Bool
  hasIncompleteTasks : Bool
deriving DecidableEq, Repr

/-- The canonical `memoJSON` response shape from tools_memo.go. `content`
carries the `omitempty` JSON option (omitted when empty), `property` is a
nilable pointer, and `parent` is a string with `omitempty` (empty means the
field is omitted from the serialized object), exactly as in the Go struct. -/
structure MemoJSON where
  name : String
  creator : String
  createTime : Int
  updateTime : Int
  content : String
  visibility : String
  tags : List String
  pinned : Bool
  state : String
  property : Option PropertyJSON
  parent : String
deriving DecidableEq, Repr

/-- `encoding/json` omits a string field marked `omitempty` exactly when it
is empty; this is the serialization-presence predicate for `content`. -/
def jsonOmitsContent (j : MemoJSON) : Bool :=
  j.content == ""

/-- `encoding/json` omits a string field marked `omitempty` exactly when it
is empty; this is the serialization-presence predicate for `parent`. -/
def jsonOmitsParent (j : MemoJSON) : Bool :=
  j.parent == ""

/-- `storeMemoToJSON` from tools_memo.go. -/
def storeMemoToJSON (m : Memo) : MemoJSON :=
  { name := "memos/" ++ m.uid
    creator := "users/" ++ toString m.creatorID
    createTime := m.createdTs
    updateTime := m.updatedTs
    content := m.content
    visibility := m.visibility
    pinned := m.pinned
    state := m.rowStatus
    tags := match m.payload with
      | some p => if 0 < p.tags.length then p.tags else []
      | none => []
    property := match m.payload with
      | some p => match p.property with
        | some pr =>
          if pr.hasLink || pr.hasTaskList || pr.hasCode || pr.hasIncompleteTasks then
            some { hasLink := pr.hasLink, hasTaskList := pr.hasTaskList,
                   hasCode := pr.hasCode, hasIncompleteTasks := pr.hasIncompleteTasks }
          else none
        | none => none
      | none => none
    parent := match m.parentUID with
      | some pu => "memos/" ++ pu
      | none => "" }

/-- The row-filter query specification `store.FindMemo`, restricted to the
fields this layer sets or the store contract reads. -/
structure FindMemo where
  uid : Option String := none
  id : Option Int := none
  idList : List Int := []
  excludeComments : Bool := false
  excludeContent : Bool := false
  rowStatus : Option String := none
  limit : Option Int := none
  offset : Option Int := none
  orderByPinned : Bool := false
  visibilityList : List String := []
  filters : List String := []
deriving DecidableEq, Repr

/-- The CEL policy clause string built by `applyVisibilityFilter` in
tools_memo.go for an authenticated caller. -/
def policyFilter (userID : Int) : String :=
  "creator_id == " ++ toString userID ++ " || visibility in [\"PUBLIC\", \"PROTECTED\"]"

/-- `applyVisibilityFilter` from tools_memo.go: anonymous callers get a
visibility-list restriction to PUBLIC; authenticated callers get the policy
clause appended to the filter list. -/
def applyVisibilityFilter (find : FindMemo) (userID : Int) : FindMemo :=
  if userID = 0 then
    { find with visibilityList := [Public] }
  else
    { find with filters := find.filters ++ [policyFilter userID] }

/-- Modelled from the spec: the external store (`store.ListMemos`, not under
src/) restricts rows to the visibility list when it is non-empty. -/
def passesVisibilityList (vl : List String) (m : Memo) : Prop :=
  vl = [] ∨ m.visibility ∈ vl

/-- Modelled from the spec: the external store ANDs all filter strings of a
find specification and applies the visibility-list restriction; the
evaluation of an individual filter string is the store's and is abstracted
as a parameter. -/
def storeRowAllowed (evalFilter : String → Memo → Prop) (find : FindMemo)
    (m : Memo) : Prop :=
  passesVisibilityList find.visibilityList m ∧ ∀ f ∈ find.filters, evalFilter f m

/-- `parseVisibility` from tools_memo.go. -/
def parseVisibility (s : String) : Except String String :=
  if s = Public ∨ s = Protected ∨ s = Private then Except.ok s
  else Except.error ("visibility must be PRIVATE, PROTECTED, or PUBLIC; got " ++ s)

/-- `parseRowStatus` from tools_memo.go. -/
def parseRowStatus (s : String) : Except String String :=
  if s = Normal ∨ s = Archived then Except.ok s
  else Except.error ("state must be NORMAL or ARCHIVED; got " ++ s)

/-- Go `strings.CutPrefix`, returning the remainder when the prefix is
present. -/
def cutPrefix (pre s : String) : Option String :=
  if pre.toList.isPrefixOf s.toList then
    some ((s.toList.drop pre.toList.length).asString)
  else none

/-- `parseMemoUID` from tools_memo.go: strip the "memos/" prefix and reject
a missing prefix or an empty uid. -/
def parseMemoUID (name : String) : Except String String :=
  match cutPrefix "memos/" name with
  | some uid =>
    if uid = "" then
      Except.error "memo name must be in the format memos/<uid>"
    else Except.ok uid
  | none => Except.error "memo name must be in the format memos/<uid>"

/-- The durable state of the external store: memo rows and relation rows. -/
structure StoreState where
  memos : List Memo
  relations : List MemoRelation
deriving DecidableEq, Repr

/-- Modelled from the spec: `store.GetMemo` with a uid lookup (store code not
under src/) resolves a uid to its row, or to nothing. -/
def getMemoByUID (st : StoreState) (uid : String) : Option Memo :=
  st.memos.find? (fun m => m.uid == uid)

/-- Modelled from the spec: `store.GetMemo` with an id lookup. -/
def getMemoByID (st : StoreState) (id : Int) : Option Memo :=
  st.memos.find? (fun m => m.id == id)

/-- The partial-update record `store.UpdateMemo` as populated by
`handleUpdateMemo`; `none` marks a field the update leaves untouched.
A `payload` of `none` means the payload column is not written. -/
structure UpdateMemo where
  id : Int
  content : Option String := none
  visibility : Option String := none
  rowStatus : Option String := none
  pinned : Option Bool := none
  payload : Option MemoPayload := none
deriving DecidableEq, Repr

/-- The argument set of the update tool. Each optional key is `none` when
absent from the caller's argument object; `req.GetString` returns the empty
string for an absent key, and the pinned key's presence is tested by map
membership, exactly as in the Go handler. -/
structure UpdateMemoArgs where
  name : String := ""
  content : Option String := none
  visibility : Option String := none
  state : Option String := none
  pinned : Option Bool := none
deriving DecidableEq, Repr

/-- The content branch of `handleUpdateMemo`: a present non-empty content
argument sets the new content and the re-derived payload; an absent or empty
one changes nothing. -/
def applyContentArg (args : UpdateMemoArgs) (u : UpdateMemo) : UpdateMemo :=
  match args.content.getD "" with
  | "" => u
  | v => { u with content := some v, payload := buildPayload v }

/-- The visibility branch of `handleUpdateMemo`: a present non-empty
visibility argument is validated and set; an absent or empty one changes
nothing. -/
def applyVisibilityArg (args : UpdateMemoArgs) (u : UpdateMemo) :
    Except String UpdateMemo :=
  match args.visibility.getD "" with
  | "" => Except.ok u
  | v => match parseVisibility v with
    | Except.error e => Except.error e
    | Except.ok vis => Except.ok { u with visibility := some vis }

/-- The state branch of `handleUpdateMemo`: a present non-empty state
argument is validated and set; an absent or empty one changes nothing. -/
def applyStateArg (args : UpdateMemoArgs) (u : UpdateMemo) :
    Except String UpdateMemo :=
  match args.state.getD "" with
  | "" => Except.ok u
  | v => match parseRowStatus v with
    | Except.error e => Except.error e
    | Except.ok rs => Except.ok { u with rowStatus := some rs }

/-- The pinned branch of `handleUpdateMemo`: the key's presence in the
argument map decides whether the pinned field is set, so an explicit false
is possible. -/
def applyPinnedArg (args : UpdateMemoArgs) (u : UpdateMemo) : UpdateMemo :=
  match args.pinned with
  | some b => { u with pinned := some b }
  | none => u

/-- The field-population logic of `handleUpdateMemo` in tools_memo.go: a
string field is taken only when the argument is present and non-empty (with
enum validation for visibility and state); the pinned field is taken exactly
when the key is present. -/
def buildUpdateMemo (memoID : Int) (args : UpdateMemoArgs) :
    Except String UpdateMemo :=
  match applyVisibilityArg args (applyContentArg args { id := memoID }) with
  | Except.error e => Except.error e
  | Except.ok u2 =>
    match applyStateArg args u2 with
    | Except.error e => Except.error e
    | Except.ok u3 => Except.ok (applyPinnedArg args u3)

/-- Modelled from the spec: `store.UpdateMemo(id, partialFields)` (store code
not under src/) applies exactly the supplied fields of the partial update to
a memo and leaves every other field unchanged; an unsupplied payload leaves
the stored payload as it is. -/
def applyUpdateMemo (m : Memo) (u : UpdateMemo) : Memo :=
  { m with
    content := u.content.getD m.content
    visibility := u.visibility.getD m.visibility
    rowStatus := u.rowStatus.getD m.rowStatus
    pinned := u.pinned.getD m.pinned
    payload := match u.payload with
      | some p => some p
      | none => m.payload }

/-- Modelled from the spec: the store applies a partial update to the row
with the matching id. -/
def updateMemoInStore (st : StoreState) (u : UpdateMemo) : StoreState :=
  { st with memos := st.memos.map fun m =>
      if m.id = u.id then applyUpdateMemo m u else m }

/-- Modelled from the spec: `store.DeleteMemo` hard-deletes the row with the
given id. -/
def deleteMemoInStore (st : StoreState) (id : Int) : StoreState :=
  { st with memos := st.memos.filter fun m => m.id ≠ id }

/-- Modelled from the spec: `store.CreateMemo` persists the draft row. -/
def createMemoInStore (st : StoreState) (m : Memo) : StoreState :=
  { st with memos := st.memos ++ [m] }

/-- Modelled from the spec: `store.UpsertMemoRelation` persists the relation
row (the comment relation is always fresh in this layer). -/
def upsertMemoRelation (st : StoreState) (r : MemoRelation) : StoreState :=
  { st with relations := st.relations ++ [r] }

/-- `handleUpdateMemo` from tools_memo.go: authentication, uid parsing,
fetch, ownership check, partial-update construction, store write, re-fetch.
Returns the per-call result together with the store state after the call. -/
def handleUpdateMemo (st : StoreState) (userID : Int) (args : UpdateMemoArgs) :
    Except String MemoJSON × StoreState :=
  if userID = 0 then
    (Except.error "unauthenticated: a personal access token is required", st)
  else
    match parseMemoUID args.name with
    | Except.error e => (Except.error e, st)
    | Except.ok uid =>
      match getMemoByUID st uid with
      | none => (Except.error "memo not found", st)
      | some memo =>
        if memo.creatorID ≠ userID then
          (Except.error "permission denied", st)
        else
          match buildUpdateMemo memo.id args with
          | Except.error e => (Except.error e, st)
          | Except.ok u =>
            let st2 := updateMemoInStore st u
            match getMemoByID st2 memo.id with
            | none => (Except.error "failed to fetch updated memo", st2)
            | some updated => (Except.ok (storeMemoToJSON updated), st2)

/-- `handleDeleteMemo` from tools_memo.go: authentication, uid parsing,
fetch, ownership check, hard delete. -/
def handleDeleteMemo (st : StoreState) (userID : Int) (name : String) :
    Except String String × StoreState :=
  if userID = 0 then
    (Except.error "unauthenticated: a personal access token is required", st)
  else
    match parseMemoUID name with
    | Except.error e => (Except.error e, st)
    | Except.ok uid =>
      match getMemoByUID st uid with
      | none => (Except.error "memo not found", st)
      | some memo =>
        if memo.creatorID ≠ userID then
          (Except.error "permission denied", st)
        else
          (Except.ok "\x7b\"deleted\":true\x7d", deleteMemoInStore st memo.id)

/-- The comment draft built by `handleCreateMemoComment` in tools_memo.go:
creator is the caller, visibility is inherited from the parent, the parent
reference is set, and tags are derived from the content. -/
def commentDraft (userID : Int) (content freshUID : String) (freshID now : Int)
    (parent : Memo) : Memo :=
  { id := freshID
    uid := freshUID
    creatorID := userID
    createdTs := now
    updatedTs := now
    rowStatus := Normal
    content := content
    visibility := parent.visibility
    pinned := false
    payload := buildPayload content
    parentUID := some parent.uid }

/-- `handleCreateMemoComment` from tools_memo.go. The fresh uid generated by
`shortuuid.New`, the row id assigned by the store, and the creation clock are
inputs of the model. The comment inherits the parent's visibility, carries
the parent reference, and the comment relation is created as the second
step, after the comment row itself. -/
def handleCreateMemoComment (st : StoreState) (userID : Int)
    (name content freshUID : String) (freshID now : Int) :
    Except String MemoJSON × StoreState :=
  if userID = 0 then
    (Except.error "unauthenticated: a personal access token is required", st)
  else
    match parseMemoUID name with
    | Except.error e => (Except.error e, st)
    | Except.ok uid =>
      if content = "" then (Except.error "content is required", st)
      else
        match getMemoByUID st uid with
        | none => (Except.error "memo not found", st)
        | some parent =>
          match checkMemoAccess parent userID with
          | some e => (Except.error e, st)
          | none =>
            let comment : Memo := commentDraft userID content freshUID freshID now parent
            let st2 := createMemoInStore st comment
            let st3 := upsertMemoRelation st2
              { memoID := freshID, relatedMemoID := parent.id,
                type := MemoRelationComment }
            (Except.ok (storeMemoToJSON comment), st3)

/-- The argument set of the list tool; each optional key is `none` when
absent. -/
structure ListMemosArgs where
  pageSize : Option Int := none
  page : Option Int := none
  state : Option String := none
  orderByPinned : Option Bool := none
  filter : Option String := none
deriving DecidableEq, Repr

/-- The page-size computation of `handleListMemos`: `req.GetInt` default 20,
then non-positive values reset to 20 and values above 100 cap at 100. -/
def effectivePageSize (args : ListMemosArgs) : Int :=
  let p := args.pageSize.getD 20
  let p := if p ≤ 0 then 20 else p
  if p > 100 then 100 else p

/-- The page-index computation of `handleListMemos`: default 0, negative
values reset to 0. -/
def effectivePage (args : ListMemosArgs) : Int :=
  let p := args.page.getD 0
  if p < 0 then 0 else p

/-- The row-status argument handling of `handleListMemos`: default NORMAL,
an explicitly empty string leaves the constraint unset, anything else is
validated against the two-value enum. -/
def listRowStatus (args : ListMemosArgs) : Except String (Option String) :=
  match args.state.getD "NORMAL" with
  | "" => Except.ok none
  | s => match parseRowStatus s with
    | Except.error e => Except.error e
    | Except.ok rs => Except.ok (some rs)

/-- The query-construction half of `handleListMemos` in tools_memo.go:
validated row status, limit `pageSize + 1`, offset `page * pageSize`, the
policy visibility filter, and the caller filter appended as its own clause
when non-empty. -/
def listMemosFind (userID : Int) (args : ListMemosArgs) :
    Except String FindMemo :=
  match listRowStatus args with
  | Except.error e => Except.error e
  | Except.ok rowStatus =>
    let find : FindMemo :=
      { excludeComments := true
        rowStatus := rowStatus
        limit := some (effectivePageSize args + 1)
        offset := some (effectivePage args * effectivePageSize args)
        orderByPinned := args.orderByPinned.getD false }
    let find := applyVisibilityFilter find userID
    match args.filter.getD "" with
    | "" => Except.ok find
    | f => Except.ok { find with filters := find.filters ++ [f] }

/-- The response shape of the list tool. -/
structure ListMemosResult where
  memos : List MemoJSON
  hasMore : Bool
deriving DecidableEq, Repr

/-- The response assembly of `handleListMemos`: the store was asked for
`pageSize + 1` rows, so more than `pageSize` returned rows means another
page exists, and the response is truncated to exactly `pageSize`. -/
def paginateRows (pageSize : Int) (rows : List Memo) : ListMemosResult :=
  let hasMore : Bool := decide (pageSize < (rows.length : Int))
  let rows := if hasMore then rows.take pageSize.toNat else rows
  { memos := rows.map storeMemoToJSON, hasMore := hasMore }

/-- `handleListMemos` from tools_memo.go, parameterized by the external
store's row-listing function: build the find specification, fetch, detect
the extra row, truncate, serialize. -/
def handleListMemos (listMemos : FindMemo → List Memo) (userID : Int)
    (args : ListMemosArgs) : Except String ListMemosResult :=
  match listMemosFind userID args with
  | Except.error e => Except.error e
  | Except.ok find =>
    Except.ok (paginateRows (effectivePageSize args) (listMemos find))

/-- `formatMemoMarkdown` from resources_memo.go: a delimited YAML-style
metadata header, a blank line, and the raw content body. -/
def formatMemoMarkdown (j : MemoJSON) : String :=
  "---\n" ++
  "name: " ++ j.name ++ "\n" ++
  "creator: " ++ j.creator ++ "\n" ++
  "visibility: " ++ j.visibility ++ "\n" ++
  "state: " ++ j.state ++ "\n" ++
  "pinned: " ++ (if j.pinned then "true" else "false") ++ "\n" ++
  (if 0 < j.tags.length then
    "tags: [" ++ String.intercalate ", " j.tags ++ "]\n"
  else "") ++
  "create_time: " ++ toString j.createTime ++ "\n" ++
  "update_time: " ++ toString j.updateTime ++ "\n" ++
  (if j.parent ≠ "" then "parent: " ++ j.parent ++ "\n" else "") ++
  "---\n\n" ++
  j.content

/-- `handleReadMemoResource` from resources_memo.go: strip the
`memo://memos/` prefix (rejecting a missing prefix or empty uid), fetch,
apply the read-access check, render. -/
def handleReadMemoResource (st : StoreState) (userID : Int) (uri : String) :
    Except String String :=
  match cutPrefix "memo://memos/" uri with
  | none => Except.error "invalid memo URI: expected memo://memos/<uid>"
  | some uid =>
    if uid = "" then
      Except.error "invalid memo URI: expected memo://memos/<uid>"
    else
      match getMemoByUID st uid with
      | none => Except.error ("memo not found: " ++ uid)
      | some memo =>
        match checkMemoAccess memo userID with
        | some e => Except.error e
        | none => Except.ok (formatMemoMarkdown (storeMemoToJSON memo))

/-- A tag with its memo count, the response entry of the list-tags tool. -/
structure TagEntry where
  tag : String
  count : Nat
deriving DecidableEq, Repr

/-- The number of occurrences of a tag across the payload tag lists of a
list of memos; a memo without a payload contributes nothing. This is the
value the counting loop of `handleListTags` assigns to each tag. -/
def tagOccurrences (t : String) (memos : List Memo) : Nat :=
  (memos.map fun m => match m.payload with
    | none => 0
    | some p => p.tags.count t).sum

/-- All tag occurrences of a list of memos in order, the stream the counting
loop of `handleListTags` iterates over. -/
def collectTags (memos : List Memo) : List String :=
  memos.foldr (fun m acc => (match m.payload with
    | none => []
    | some p => p.tags) ++ acc) []

/-- The sort comparator of `handleListTags`: count descending, ties broken
by tag ascending. As a total preorder for sorting. -/
def tagEntryLE (a b : TagEntry) : Bool :=
  if a.count = b.count then decide (a.tag ≤ b.tag) else decide (b.count < a.count)

/-- The aggregation of `handleListTags` in the tag tool source: count every
tag occurrence over the returned memos (skipping absent payloads), one entry
per distinct tag, sorted by count descending with ties broken by tag
ascending. The Go map iteration order is irrelevant because the comparator
is a strict total order on the distinct tags, so the sorted output is
unique; the model takes the entries in first-occurrence order and sorts. -/
def handleListTags (memos : List Memo) : List TagEntry :=
  let entries := (dedupSeen (collectTags memos) []).map fun t =>
    { tag := t, count := tagOccurrences t memos : TagEntry }
  entries.mergeSort tagEntryLE

/-- A sample memo used to instantiate theorems at concrete inputs. -/
def wMemo : Memo :=
  { id := 1, uid := "m1", creatorID := 1, createdTs := 10, updatedTs := 11,
    rowStatus := Normal, content := "hello #work", visibility := Private,
    pinned := false, payload := some { tags := ["work"], property := none },
    parentUID := none }

/-- A sample store holding only `wMemo`. -/
def wSt : StoreState := { memos := [wMemo], relations := [] }

/-- A memo whose stored tags disagree with new tagless content after an
update, exhibiting the untouched-payload behaviour. -/
def cMemo : Memo :=
  { id := 1, uid := "u1", creatorID := 7, createdTs := 0, updatedTs := 0,
    rowStatus := Normal, content := "x #a", visibility := Private,
    pinned := false, payload := some { tags := ["a"], property := none },
    parentUID := none }

/-- Sample list-tool arguments. -/
def wListArgs : ListMemosArgs := { pageSize := some 2 }

/-- The find specification produced for `wListArgs` by an anonymous call. -/
def wFind : FindMemo :=
  { excludeComments := true, rowStatus := some "NORMAL", limit := some 3,
    offset := some 0, orderByPinned := false, visibilityList := [Public],
    filters := [] }

/-- Sample update-tool arguments touching content and pinned. -/
def wUpdateArgs : UpdateMemoArgs :=
  { name := "memos/m1", content := some "new #tag", pinned := some true }

/-- The partial update built from `wUpdateArgs` for memo id 1. -/
def wUpdate : UpdateMemo :=
  { id := 1, content := some "new #tag",
    payload := some { tags := ["tag"], property := none }, pinned := some true }

/-- A memo without a payload, contributing no tags. -/
def wNoPayloadMemo : Memo :=
  { id := 3, uid := "m3", creatorID := 1, createdTs := 20, updatedTs := 21,
    rowStatus := Normal, content := "no tags here", visibility := Public,
    pinned := false, payload := none, parentUID := none }

end Memos

namespace Memos

/-! Helper lemmas shared by the claim theorems. -/

/-- Every list produced by `dedupSeen` has no duplicates and avoids the
seen accumulator. -/
theorem dedupSeen_nodup_aux (l : List String) :
    ∀ seen, (dedupSeen l seen).Nodup ∧ ∀ t ∈ dedupSeen l seen, t ∉ seen := by
  induction l with
  | nil => intro seen; simp [dedupSeen]
  | cons t rest ih =>
    intro seen
    by_cases h : t ∈ seen
    · simpa [dedupSeen, h] using ih seen
    · have h2 := ih (t :: seen)
      refine ⟨?_, ?_⟩
      · simp only [dedupSeen, h, if_false]
        refine List.nodup_cons.mpr ⟨?_, h2.1⟩
        intro hmem
        exact (h2.2 t hmem) (by simp)
      · intro u hu
        simp only [dedupSeen, h, if_false, List.mem_cons] at hu
        rcases hu with rfl | hu
        · exact h
        · intro hs
          exact (h2.2 u hu) (by simp [hs])

/-- `dedupSeen` only returns elements of its input. -/
theorem mem_of_mem_dedupSeen {t : String} (l : List String) :
    ∀ seen, t ∈ dedupSeen l seen → t ∈ l := by
  induction l with
  | nil => intro seen h; simp [dedupSeen] at h
  | cons u rest ih =>
    intro seen h
    by_cases hu : u ∈ seen
    · rw [dedupSeen, if_pos hu] at h
      exact List.mem_cons_of_mem _ (ih seen h)
    · rw [dedupSeen, if_neg hu] at h
      rcases List.mem_cons.mp h with rfl | h
      · exact List.mem_cons_self _ _
      · exact List.mem_cons_of_mem _ (ih (u :: seen) h)

/-- `dedupSeen` keeps every input element that is not in the accumulator. -/
theorem mem_dedupSeen_of_mem {t : String} (l : List String) :
    ∀ seen, t ∈ l → t ∉ seen → t ∈ dedupSeen l seen := by
  induction l with
  | nil => intro seen h; simp at h
  | cons u rest ih =>
    intro seen h hseen
    rcases List.mem_cons.mp h with rfl | h
    · simp only [dedupSeen, hseen, if_false]
      exact List.mem_cons_self _ _
    · by_cases hu : u ∈ seen
      · simp only [dedupSeen, hu, if_true]
        exact ih seen h hseen
      · simp only [dedupSeen, hu, if_false]
        by_cases ht : t = u
        · subst ht; exact List.mem_cons_self _ _
        · exact List.mem_cons_of_mem _
            (ih (u :: seen) h (by simp [ht, hseen]))

/-- String concatenation acts as concatenation on character lists. -/
theorem toList_append (a b : String) :
    (a ++ b).toList = a.toList ++ b.toList := by
  simp [String.toList]

/-- `cutPrefix` recovers the remainder of an actual concatenation. -/
theorem cutPrefix_append (pre rest : String) :
    cutPrefix pre (pre ++ rest) = some rest := by
  unfold cutPrefix
  have h1 : (pre ++ rest).toList = pre.toList ++ rest.toList := toList_append pre rest
  have h2 : pre.toList.isPrefixOf ((pre ++ rest).toList) = true := by
    rw [h1]
    exact List.isPrefixOf_iff_prefix.mpr ⟨rest.toList, rfl⟩
  rw [if_pos h2, h1, List.drop_left]
  cases rest
  rfl

/-- A successful `cutPrefix` exhibits the string as prefix plus remainder. -/
theorem eq_append_of_cutPrefix {pre s rest : String}
    (h : cutPrefix pre s = some rest) : s = pre ++ rest := by
  unfold cutPrefix at h
  split at h
  case isTrue hp =>
    obtain ⟨t, ht⟩ := List.isPrefixOf_iff_prefix.mp hp
    have hdrop : s.toList.drop pre.toList.length = t := by
      rw [← ht, List.drop_left]
    rw [hdrop] at h
    have hrest : rest = t.asString := (Option.some.inj h).symm
    have hs : s.toList = pre.toList ++ rest.toList := by
      rw [hrest, ← ht]
      rfl
    cases s with
    | mk sd =>
      cases pre with
      | mk pd =>
        cases rest with
        | mk rd =>
          simp only [String.toList] at hs
          simpa [String.ext_iff] using hs
  case isFalse => exact absurd h (by simp)

/-- `parseMemoUID` accepts exactly the names with the "memos/" prefix and a
non-empty uid. -/
theorem parseMemoUID_append {uid : String} (h : uid ≠ "") :
    parseMemoUID ("memos/" ++ uid) = Except.ok uid := by
  unfold parseMemoUID
  rw [cutPrefix_append]
  simp [h]

/-! The claim theorems. -/

/-- Claim C1: the read-access check grants access iff the memo is PUBLIC, or
PROTECTED with a non-anonymous caller, or PRIVATE with the caller equal to
the creator, or the visibility is none of the three known values
(fail-open on unknown visibility). -/
theorem C1_canRead_iff (m : Memo) (c : Int) :
    checkMemoAccess m c = none ↔
      (m.visibility = Public ∨
       (m.visibility = Protected ∧ c ≠ 0) ∨
       (m.visibility = Private ∧ c = m.creatorID) ∨
       (m.visibility ≠ Public ∧ m.visibility ≠ Protected ∧ m.visibility ≠ Private)) := by
  unfold checkMemoAccess
  split_ifs with h1 h2 h3 h4 <;>
    simp_all [Public, Protected, Private] <;> tauto

/-- Claim C6 counterexample: on the spec's example string the first captured
tag is "world," (the comma is a non-whitespace non-hash character, so the
maximal run includes it); the claimed output ["world", "Go-lang", "a1"] is
therefore not what the code returns. -/
theorem C6_counterexample :
    extractTags "hello #world, #Go-lang #a1" ≠ ["world", "Go-lang", "a1"] := by
  decide

/-- Claim C6 (amended): tag extraction returns the substrings following a
hash at start-of-text or right after whitespace, each the maximal run of
non-whitespace non-hash characters starting with a letter, in order of first
appearance, deduplicated case-sensitively; on the example string this yields
["world,", "Go-lang", "a1"] (comma included), and a bare hash or a
digit-first candidate yields no tag. -/
theorem C6_extractTags :
    extractTags "hello #world, #Go-lang #a1" = ["world,", "Go-lang", "a1"] ∧
    extractTags "#" = [] ∧
    extractTags "#1abc" = [] ∧
    extractTags "#tag #tag #Tag" = ["tag", "Tag"] ∧
    ∀ s : String, (extractTags s).Nodup := by
  refine ⟨by decide, by decide, by decide, by decide, ?_⟩
  intro s
  exact (dedupSeen_nodup_aux _ []).1

/-- Claim C10: in the canonical serialization, the tags field is always a
list (empty when the payload is absent or has no tags); the property object
is present iff the payload's property exists with at least one flag set; the
parent field is present iff the memo has a parent reference; and the content
field is omitted exactly when the memo's content is empty. -/
theorem C10_memoJSON_invariants (m : Memo) :
    ((storeMemoToJSON m).tags = match m.payload with
      | some p => p.tags
      | none => []) ∧
    (m.payload = none → (storeMemoToJSON m).tags = []) ∧
    ((storeMemoToJSON m).property.isSome = true ↔
      ∃ p pr, m.payload = some p ∧ p.property = some pr ∧
        (pr.hasLink = true ∨ pr.hasTaskList = true ∨ pr.hasCode = true ∨
         pr.hasIncompleteTasks = true)) ∧
    (jsonOmitsParent (storeMemoToJSON m) = false ↔ m.parentUID.isSome = true) ∧
    (jsonOmitsContent (storeMemoToJSON m) = true ↔ m.content = "") := by
  refine ⟨?_, ?_, ?_, ?_, ?_⟩
  · cases hp : m.payload with
    | none => simp [storeMemoToJSON, hp]
    | some p =>
      cases ht : p.tags with
      | nil => simp [storeMemoToJSON, hp, ht]
      | cons a l => simp [storeMemoToJSON, hp, ht]
  · intro hp
    simp [storeMemoToJSON, hp]
  · cases hp : m.payload with
    | none => simp [storeMemoToJSON, hp]
    | some p =>
      cases hpr : p.property with
      | none => simp [storeMemoToJSON, hp, hpr]
      | some pr =>
        by_cases hflag : pr.hasLink = true ∨ pr.hasTaskList = true ∨
            pr.hasCode = true ∨ pr.hasIncompleteTasks = true
        · simp only [storeMemoToJSON, hp, hpr]
          constructor
          · intro _
            exact ⟨p, pr, by simp [hp], by simp [hpr], hflag⟩
          · intro _
            rcases hflag with h | h | h | h <;> simp [h]
        · push_neg at hflag
          simp only [Bool.not_eq_true] at hflag
          simp [storeMemoToJSON, hp, hpr, hflag.1, hflag.2.1, hflag.2.2.1,
            hflag.2.2.2]
  · cases hpu : m.parentUID with
    | none => simp [storeMemoToJSON, jsonOmitsParent, hpu]
    | some pu =>
      simp only [storeMemoToJSON, jsonOmitsParent, hpu, Option.isSome_some,
        iff_true, beq_eq_false_iff_ne, ne_eq]
      intro hcontra
      have hlen := congrArg String.length hcontra
      rw [String.length_append] at hlen
      have h6 : ("memos/" : String).length = 6 := by decide
      have h0 : ("" : String).length = 0 := rfl
      rw [h6, h0] at hlen
      omega
  · simp [storeMemoToJSON, jsonOmitsContent]

/-- Claim C2: the row-level visibility policy restricts bulk queries to
PUBLIC rows for anonymous callers and to own-or-public-or-protected rows for
authenticated callers, and a caller-supplied list filter is appended as its
own clause of the conjunctive filter list, never merged into the policy
clause. The store's filter-string evaluation is external; it is abstracted
by `evalFilter`, assumed to give the policy clause its documented meaning. -/
theorem C2_visibility_filter (find : FindMemo) (userID : Int) (m : Memo)
    (evalFilter : String → Memo → Prop)
    (hpol : evalFilter (policyFilter userID) m ↔
      (m.creatorID = userID ∨ m.visibility = Public ∨ m.visibility = Protected))
    (hvl : find.visibilityList = []) (hf : find.filters = []) :
    (userID = 0 →
      (applyVisibilityFilter find userID).visibilityList = [Public] ∧
      (applyVisibilityFilter find userID).filters = [] ∧
      (storeRowAllowed evalFilter (applyVisibilityFilter find userID) m ↔
        m.visibility = Public)) ∧
    (userID ≠ 0 →
      (applyVisibilityFilter find userID).visibilityList = [] ∧
      (applyVisibilityFilter find userID).filters = [policyFilter userID] ∧
      (storeRowAllowed evalFilter (applyVisibilityFilter find userID) m ↔
        (m.creatorID = userID ∨ m.visibility = Public ∨ m.visibility = Protected))) ∧
    (∀ args : ListMemosArgs, ∀ f find2, userID ≠ 0 → args.filter = some f →
      f ≠ "" → listMemosFind userID args = Except.ok find2 →
      find2.filters = [policyFilter userID, f]) := by
  refine ⟨?_, ?_, ?_⟩
  · intro h0
    have hav : applyVisibilityFilter find userID =
        { find with visibilityList := [Public] } := by
      simp [applyVisibilityFilter, h0]
    rw [hav]
    refine ⟨rfl, hf, ?_⟩
    simp [storeRowAllowed, passesVisibilityList, hf]
  · intro h0
    have hav : applyVisibilityFilter find userID =
        { find with filters := find.filters ++ [policyFilter userID] } := by
      simp [applyVisibilityFilter, h0]
    rw [hav]
    refine ⟨hvl, by simp [hf], ?_⟩
    simp [storeRowAllowed, passesVisibilityList, hvl, hf, hpol]
  · intro args f find2 h0 hargf hfne hok
    unfold listMemosFind at hok
    split at hok
    · exact absurd hok (by simp)
    · rw [hargf] at hok
      simp only [Option.getD_some] at hok
      have := Except.ok.inj hok
      rw [← this]
      simp [applyVisibilityFilter, h0]

/-- `parseVisibility` returns its input on success. -/
theorem parseVisibility_ok {s w : String}
    (h : parseVisibility s = Except.ok w) : w = s := by
  unfold parseVisibility at h
  split at h
  · exact (Except.ok.inj h).symm
  · exact absurd h (by simp)

/-- `parseRowStatus` returns its input on success. -/
theorem parseRowStatus_ok {s w : String}
    (h : parseRowStatus s = Except.ok w) : w = s := by
  unfold parseRowStatus at h
  split at h
  · exact (Except.ok.inj h).symm
  · exact absurd h (by simp)

/-- Field accounting for the content branch of the update builder. -/
theorem applyContentArg_fields (args : UpdateMemoArgs) (u : UpdateMemo) :
    (applyContentArg args u).id = u.id ∧
    (applyContentArg args u).visibility = u.visibility ∧
    (applyContentArg args u).rowStatus = u.rowStatus ∧
    (applyContentArg args u).pinned = u.pinned ∧
    (applyContentArg args u).content =
      (match args.content.getD "" with
       | "" => u.content
       | v => some v) ∧
    (applyContentArg args u).payload =
      (match args.content.getD "" with
       | "" => u.payload
       | v => buildPayload v) := by
  unfold applyContentArg
  split <;> simp_all

/-- Field accounting for the visibility branch of the update builder. -/
theorem applyVisibilityArg_ok {args : UpdateMemoArgs} {u u2 : UpdateMemo}
    (h : applyVisibilityArg args u = Except.ok u2) :
    u2.id = u.id ∧ u2.content = u.content ∧ u2.payload = u.payload ∧
    u2.rowStatus = u.rowStatus ∧ u2.pinned = u.pinned ∧
    u2.visibility =
      (match args.visibility.getD "" with
       | "" => u.visibility
       | _ => some (args.visibility.getD "")) := by
  unfold applyVisibilityArg at h
  split at h
  case h_1 heq =>
    obtain rfl := Except.ok.inj h
    simp [heq]
  case h_2 v heq =>
    split at h
    · exact absurd h (by simp)
    case h_2 vis hp =>
      obtain rfl := parseVisibility_ok hp
      obtain rfl := Except.ok.inj h
      simp [heq]

/-- Field accounting for the state branch of the update builder. -/
theorem applyStateArg_ok {args : UpdateMemoArgs} {u u2 : UpdateMemo}
    (h : applyStateArg args u = Except.ok u2) :
    u2.id = u.id ∧ u2.content = u.content ∧ u2.payload = u.payload ∧
    u2.visibility = u.visibility ∧ u2.pinned = u.pinned ∧
    u2.rowStatus =
      (match args.state.getD "" with
       | "" => u.rowStatus
       | _ => some (args.state.getD "")) := by
  unfold applyStateArg at h
  split at h
  case h_1 heq =>
    obtain rfl := Except.ok.inj h
    simp [heq]
  case h_2 v heq =>
    split at h
    · exact absurd h (by simp)
    case h_2 rs hp =>
      obtain rfl := parseRowStatus_ok hp
      obtain rfl := Except.ok.inj h
      simp [heq]

/-- Field accounting for the pinned branch of the update builder. -/
theorem applyPinnedArg_fields (args : UpdateMemoArgs) (u : UpdateMemo) :
    (applyPinnedArg args u).id = u.id ∧
    (applyPinnedArg args u).content = u.content ∧
    (applyPinnedArg args u).payload = u.payload ∧
    (applyPinnedArg args u).visibility = u.visibility ∧
    (applyPinnedArg args u).rowStatus = u.rowStatus ∧
    (applyPinnedArg args u).pinned =
      (match args.pinned with
       | some b => some b
       | none => u.pinned) := by
  unfold applyPinnedArg
  split <;> simp_all

/-- The update record built by `handleUpdateMemo`, field by field. -/
theorem buildUpdateMemo_fields {memoID : Int} {args : UpdateMemoArgs}
    {u : UpdateMemo} (h : buildUpdateMemo memoID args = Except.ok u) :
    u.id = memoID ∧
    u.content = (match args.content.getD "" with
      | "" => none
      | v => some v) ∧
    u.payload = (match args.content.getD "" with
      | "" => none
      | v => buildPayload v) ∧
    u.visibility = (match args.visibility.getD "" with
      | "" => none
      | _ => some (args.visibility.getD "")) ∧
    u.rowStatus = (match args.state.getD "" with
      | "" => none
      | _ => some (args.state.getD "")) ∧
    u.pinned = args.pinned := by
  unfold buildUpdateMemo at h
  split at h
  next e heq => exact absurd h (by simp)
  next u2 hv =>
    split at h
    next e heq => exact absurd h (by simp)
    next u3 hs =>
      obtain rfl := Except.ok.inj h
      have hc := applyContentArg_fields args { id := memoID }
      have hvf := applyVisibilityArg_ok hv
      have hsf := applyStateArg_ok hs
      have hpf := applyPinnedArg_fields args u3
      cases hvis : args.visibility <;> cases hst : args.state <;>
        cases hpin : args.pinned <;> simp_all

/-- An empty partial update leaves a memo unchanged. -/
theorem applyUpdateMemo_empty (m : Memo) (memoID : Int) :
    applyUpdateMemo m { id := memoID } = m := rfl

/-- An empty argument set builds the empty partial update. -/
theorem buildUpdateMemo_empty (memoID : Int) (n : String) :
    buildUpdateMemo memoID { name := n } = Except.ok { id := memoID } := rfl

/-- Writing an empty partial update leaves the store unchanged. -/
theorem updateMemoInStore_empty (st : StoreState) (memoID : Int) :
    updateMemoInStore st { id := memoID } = st := by
  unfold updateMemoInStore
  have hmap : st.memos.map
      (fun m => if m.id = memoID then applyUpdateMemo m { id := memoID } else m) =
      st.memos := by
    have hcong : ∀ m ∈ st.memos,
        (if m.id = memoID then applyUpdateMemo m { id := memoID } else m) = m := by
      intro m _
      split
      · exact applyUpdateMemo_empty m memoID
      · rfl
    calc st.memos.map
          (fun m => if m.id = memoID then applyUpdateMemo m { id := memoID } else m)
        = st.memos.map id := List.map_congr_left hcong
      _ = st.memos := List.map_id _
  rw [hmap]

/-- Claim C3: an update or delete by an authenticated caller whose identity
differs from the memo's creator fails with permission denied and leaves the
store unchanged, regardless of the memo's visibility; there is no bypass for
any other identity in this layer. -/
theorem C3_ownership (st : StoreState) (userID : Int) (uid : String)
    (memo : Memo) (args : UpdateMemoArgs)
    (hu : userID ≠ 0) (huid : uid ≠ "")
    (hname : args.name = "memos/" ++ uid)
    (hget : getMemoByUID st uid = some memo)
    (howner : memo.creatorID ≠ userID) :
    handleUpdateMemo st userID args = (Except.error "permission denied", st) ∧
    handleDeleteMemo st userID ("memos/" ++ uid) =
      (Except.error "permission denied", st) := by
  constructor
  · unfold handleUpdateMemo
    rw [if_neg hu, hname, parseMemoUID_append huid]
    simp [hget, howner]
  · unfold handleDeleteMemo
    rw [if_neg hu, parseMemoUID_append huid]
    simp [hget, howner]

/-- Claim C3 witness: a concrete non-owner call is denied on both update and
delete with the store unchanged. -/
theorem C3_ownership_witness :
    handleUpdateMemo wSt 2 { name := "memos/" ++ "m1" } =
      (Except.error "permission denied", wSt) ∧
    handleDeleteMemo wSt 2 ("memos/" ++ "m1") =
      (Except.error "permission denied", wSt) :=
  C3_ownership wSt 2 "m1" wMemo { name := "memos/" ++ "m1" }
    (by decide) (by decide) rfl (by decide) (by decide)

/-- Claim C7 counterexample: an owner update that changes the content to a
tagless string leaves the stored payload's tag set untouched, because the
layer passes a nil payload to the store when no tags are found; the old tag
list ["a"] survives although the new content re-derives to no tags, so a
content change does not always replace the payload's tag set. -/
theorem C7_counterexample :
    extractTags "plain" = [] ∧
    ((handleUpdateMemo { memos := [cMemo], relations := [] } 7
        { name := "memos/u1", content := some "plain" }).2.memos.map
      (fun m => (m.content, m.payload))) =
      [("plain", some { tags := ["a"], property := none })] := by
  constructor
  · decide
  · decide

/-- Claim C7 (amended): for an owner update, a string field (content,
visibility, state) is changed exactly when its key is supplied with a
non-empty string, the pinned field is set exactly when its key is present,
every other field keeps its previous value, an empty argument set changes
nothing, and a content change sets the payload to the tags re-derived from
the new content when at least one tag is found — when none is found the
payload write is omitted and the previous payload, including its tag set,
is kept. -/
theorem C7_partial_update (m : Memo) (args : UpdateMemoArgs) (u : UpdateMemo)
    (hok : buildUpdateMemo m.id args = Except.ok u) :
    ((args.content = none ∨ args.content = some "") →
      (applyUpdateMemo m u).content = m.content ∧
      (applyUpdateMemo m u).payload = m.payload) ∧
    (∀ v, args.content = some v → v ≠ "" →
      (applyUpdateMemo m u).content = v ∧
      (applyUpdateMemo m u).payload =
        (match buildPayload v with
         | some p => some p
         | none => m.payload)) ∧
    ((args.visibility = none ∨ args.visibility = some "") →
      (applyUpdateMemo m u).visibility = m.visibility) ∧
    (∀ v, args.visibility = some v → v ≠ "" →
      (applyUpdateMemo m u).visibility = v) ∧
    ((args.state = none ∨ args.state = some "") →
      (applyUpdateMemo m u).rowStatus = m.rowStatus) ∧
    (∀ v, args.state = some v → v ≠ "" →
      (applyUpdateMemo m u).rowStatus = v) ∧
    (args.pinned = none → (applyUpdateMemo m u).pinned = m.pinned) ∧
    (∀ b, args.pinned = some b → (applyUpdateMemo m u).pinned = b) ∧
    ((applyUpdateMemo m u).id = m.id ∧ (applyUpdateMemo m u).uid = m.uid ∧
     (applyUpdateMemo m u).creatorID = m.creatorID ∧
     (applyUpdateMemo m u).createdTs = m.createdTs ∧
     (applyUpdateMemo m u).parentUID = m.parentUID) ∧
    (∀ st userID uid memo2, userID ≠ 0 → uid ≠ "" →
      getMemoByUID st uid = some memo2 → memo2.creatorID = userID →
      (handleUpdateMemo st userID { name := "memos/" ++ uid }).2 = st) := by
  obtain ⟨hid, hcon, hpay, hvis, hrs, hpin⟩ := buildUpdateMemo_fields hok
  refine ⟨?_, ?_, ?_, ?_, ?_, ?_, ?_, ?_, ?_, ?_⟩
  · intro h
    have hg : args.content.getD "" = "" := by rcases h with h | h <;> simp [h]
    rw [hg] at hcon hpay
    simp [applyUpdateMemo, hcon, hpay]
  · intro v hv hvne
    have hg : args.content.getD "" = v := by simp [hv]
    rw [hg] at hcon hpay
    simp only [hvne] at hcon hpay
    constructor
    · simp [applyUpdateMemo, hcon]
    · simp only [applyUpdateMemo, hpay]
  · intro h
    have hg : args.visibility.getD "" = "" := by rcases h with h | h <;> simp [h]
    rw [hg] at hvis
    simp only [applyUpdateMemo, hvis, Option.getD_none]
  · intro v hv hvne
    have hg : args.visibility.getD "" = v := by simp [hv]
    rw [hg] at hvis
    simp only [hvne] at hvis
    simp [applyUpdateMemo, hvis, hg]
  · intro h
    have hg : args.state.getD "" = "" := by rcases h with h | h <;> simp [h]
    rw [hg] at hrs
    simp only [applyUpdateMemo, hrs, Option.getD_none]
  · intro v hv hvne
    have hg : args.state.getD "" = v := by simp [hv]
    rw [hg] at hrs
    simp only [hvne] at hrs
    simp [applyUpdateMemo, hrs, hg]
  · intro h
    rw [h] at hpin
    simp [applyUpdateMemo, hpin]
  · intro b hb
    rw [hb] at hpin
    simp [applyUpdateMemo, hpin]
  · simp [applyUpdateMemo]
  · intro st userID uid memo2 hu huid hget howner
    unfold handleUpdateMemo
    rw [if_neg hu]
    have hname : ({ name := "memos/" ++ uid } : UpdateMemoArgs).name =
        "memos/" ++ uid := rfl
    rw [hname, parseMemoUID_append huid]
    simp only [hget]
    rw [if_neg (by simp [howner])]
    rw [buildUpdateMemo_empty]
    split
    next e heq => exact absurd heq (by simp)
    next u2 heq =>
      obtain rfl := Except.ok.inj heq
      rw [updateMemoInStore_empty]
      split <;> rfl

/-- Claim C7 witness: a concrete owner update supplying content and pinned
builds the expected partial update and sets the pinned flag. -/
theorem C7_partial_update_witness :
    buildUpdateMemo wMemo.id wUpdateArgs = Except.ok wUpdate ∧
    (applyUpdateMemo wMemo wUpdate).pinned = true :=
  ⟨rfl,
   (C7_partial_update wMemo wUpdateArgs wUpdate rfl).2.2.2.2.2.2.2.1
     true rfl⟩

/-- Claim C4: a successful create-comment creates a comment whose visibility
equals the parent's visibility at creation time (no caller-chosen value
exists), whose creator is the caller and which carries the parent reference,
and appends exactly one comment-typed relation from the comment to the
parent after the comment row itself; the call fails on empty content, on a
denied parent read, and on a missing parent, leaving the store unchanged. -/
theorem C4_create_comment (st : StoreState) (userID : Int)
    (uid content freshUID : String) (freshID now : Int) (parent : Memo)
    (hu : userID ≠ 0) (huid : uid ≠ "")
    (hget : getMemoByUID st uid = some parent) :
    (checkMemoAccess parent userID = none → content ≠ "" →
      handleCreateMemoComment st userID ("memos/" ++ uid) content freshUID
          freshID now =
        (Except.ok (storeMemoToJSON
            (commentDraft userID content freshUID freshID now parent)),
         { memos := st.memos ++
             [commentDraft userID content freshUID freshID now parent],
           relations := st.relations ++
             [{ memoID := freshID, relatedMemoID := parent.id,
                type := MemoRelationComment }] }) ∧
      (commentDraft userID content freshUID freshID now parent).visibility =
        parent.visibility ∧
      (commentDraft userID content freshUID freshID now parent).creatorID =
        userID ∧
      (commentDraft userID content freshUID freshID now parent).parentUID =
        some parent.uid ∧
      (commentDraft userID content freshUID freshID now parent).content =
        content) ∧
    (content = "" →
      handleCreateMemoComment st userID ("memos/" ++ uid) content freshUID
          freshID now = (Except.error "content is required", st)) ∧
    (∀ e, checkMemoAccess parent userID = some e → content ≠ "" →
      handleCreateMemoComment st userID ("memos/" ++ uid) content freshUID
          freshID now = (Except.error e, st)) ∧
    (∀ uid2 : String, uid2 ≠ "" → getMemoByUID st uid2 = none → content ≠ "" →
      handleCreateMemoComment st userID ("memos/" ++ uid2) content freshUID
          freshID now = (Except.error "memo not found", st)) := by
  refine ⟨?_, ?_, ?_, ?_⟩
  · intro hacc hcne
    refine ⟨?_, rfl, rfl, rfl, rfl⟩
    unfold handleCreateMemoComment
    rw [if_neg hu, parseMemoUID_append huid]
    simp [hcne, hget, hacc, createMemoInStore, upsertMemoRelation]
  · intro hce
    unfold handleCreateMemoComment
    rw [if_neg hu, parseMemoUID_append huid]
    simp [hce]
  · intro e hacc hcne
    unfold handleCreateMemoComment
    rw [if_neg hu, parseMemoUID_append huid]
    simp [hcne, hget, hacc]
  · intro uid2 huid2 hnone hcne
    unfold handleCreateMemoComment
    rw [if_neg hu, parseMemoUID_append huid2]
    simp [hcne, hnone]

/-- Claim C4 witness: a concrete successful comment on `wMemo` by its owner
returns the draft comment and appends it and the single comment relation. -/
theorem C4_create_comment_witness :
    handleCreateMemoComment wSt 1 ("memos/" ++ "m1") "nice #reply" "c1" 2 50 =
      (Except.ok (storeMemoToJSON (commentDraft 1 "nice #reply" "c1" 2 50 wMemo)),
       { memos := wSt.memos ++ [commentDraft 1 "nice #reply" "c1" 2 50 wMemo],
         relations := wSt.relations ++
           [{ memoID := 2, relatedMemoID := wMemo.id,
              type := MemoRelationComment }] }) :=
  ((C4_create_comment wSt 1 "m1" "nice #reply" "c1" 2 50 wMemo
    (by decide) (by decide) (by decide)).1 (by decide) (by decide)).1

/-- The effective page size always lies in [1, 100]. -/
theorem effectivePageSize_bounds (args : ListMemosArgs) :
    1 ≤ effectivePageSize args ∧ effectivePageSize args ≤ 100 := by
  unfold effectivePageSize
  cases args.pageSize <;> simp only [Option.getD_some, Option.getD_none] <;>
    split_ifs <;> omega

/-- The effective page index is never negative. -/
theorem effectivePage_nonneg (args : ListMemosArgs) :
    0 ≤ effectivePage args := by
  unfold effectivePage
  cases args.page <;> simp only [Option.getD_some, Option.getD_none] <;>
    split_ifs <;> omega

/-- The visibility filter does not touch the pagination window. -/
theorem applyVisibilityFilter_window (find : FindMemo) (userID : Int) :
    (applyVisibilityFilter find userID).limit = find.limit ∧
    (applyVisibilityFilter find userID).offset = find.offset := by
  unfold applyVisibilityFilter
  split <;> exact ⟨rfl, rfl⟩

/-- Every find specification the list tool builds carries the pagination
window limit `pageSize + 1` and offset `page * pageSize`. -/
theorem listMemosFind_window {userID : Int} {args : ListMemosArgs}
    {find : FindMemo} (hok : listMemosFind userID args = Except.ok find) :
    find.limit = some (effectivePageSize args + 1) ∧
    find.offset = some (effectivePage args * effectivePageSize args) := by
  unfold listMemosFind at hok
  split at hok
  · exact absurd hok (by simp)
  next rowStatus heq =>
    split at hok <;>
    · obtain rfl := Except.ok.inj hok
      exact ⟨(applyVisibilityFilter_window _ _).1,
             (applyVisibilityFilter_window _ _).2⟩

/-- The truncation behaviour of the list response. -/
theorem paginateRows_spec (pageSize : Int) (rows : List Memo)
    (hps : 1 ≤ pageSize) :
    ((paginateRows pageSize rows).hasMore = true ↔
      pageSize < (rows.length : Int)) ∧
    (((paginateRows pageSize rows).memos.length : Int) ≤ pageSize) ∧
    ((paginateRows pageSize rows).hasMore = true →
      ((paginateRows pageSize rows).memos.length : Int) = pageSize) ∧
    ((paginateRows pageSize rows).hasMore = false →
      (paginateRows pageSize rows).memos = rows.map storeMemoToJSON) := by
  by_cases h : pageSize < (rows.length : Int)
  · have hd : decide (pageSize < (rows.length : Int)) = true := by simp [h]
    have hres : paginateRows pageSize rows =
        { memos := (rows.take pageSize.toNat).map storeMemoToJSON,
          hasMore := true } := by
      simp [paginateRows, hd]
    have hlen : (rows.take pageSize.toNat).length = pageSize.toNat := by
      rw [List.length_take]
      exact min_eq_left (by omega)
    rw [hres]
    refine ⟨by simp [h], ?_, ?_, by simp⟩
    · simp only [List.length_map, hlen]
      omega
    · intro _
      simp only [List.length_map, hlen]
      omega
  · have hd : decide (pageSize < (rows.length : Int)) = false := by
      simp [h]
    have hres : paginateRows pageSize rows =
        { memos := rows.map storeMemoToJSON, hasMore := false } := by
      simp [paginateRows, hd]
    rw [hres]
    refine ⟨by simp [h], ?_, by simp, by simp⟩
    simp only [List.length_map]
    omega

/-- Claim C5: the effective page size defaults to 20 and always lies in
[1, 100], the page index defaults to 0 and is clamped to be non-negative,
the store is asked for `pageSize + 1` rows at offset `page * pageSize`, the
response's has-more flag is true iff the store returned more than `pageSize`
rows (in which case the result is truncated to exactly `pageSize` items),
and at most `pageSize` items are ever returned. -/
theorem C5_pagination (listMemos : FindMemo → List Memo) (userID : Int)
    (args : ListMemosArgs) (find : FindMemo)
    (hok : listMemosFind userID args = Except.ok find) :
    (args.pageSize = none → effectivePageSize args = 20) ∧
    (args.page = none → effectivePage args = 0) ∧
    1 ≤ effectivePageSize args ∧ effectivePageSize args ≤ 100 ∧
    0 ≤ effectivePage args ∧
    find.limit = some (effectivePageSize args + 1) ∧
    find.offset = some (effectivePage args * effectivePageSize args) ∧
    handleListMemos listMemos userID args =
      Except.ok (paginateRows (effectivePageSize args) (listMemos find)) ∧
    (∀ res, handleListMemos listMemos userID args = Except.ok res →
      (res.hasMore = true ↔
        effectivePageSize args < ((listMemos find).length : Int)) ∧
      ((res.memos.length : Int) ≤ effectivePageSize args) ∧
      (res.hasMore = true →
        (res.memos.length : Int) = effectivePageSize args) ∧
      (res.hasMore = false →
        res.memos = (listMemos find).map storeMemoToJSON)) := by
  have hh : handleListMemos listMemos userID args =
      Except.ok (paginateRows (effectivePageSize args) (listMemos find)) := by
    unfold handleListMemos
    rw [hok]
  refine ⟨?_, ?_, (effectivePageSize_bounds args).1,
    (effectivePageSize_bounds args).2, effectivePage_nonneg args,
    (listMemosFind_window hok).1, (listMemosFind_window hok).2, hh, ?_⟩
  · intro h
    unfold effectivePageSize
    rw [h]
    rfl
  · intro h
    unfold effectivePage
    rw [h]
    rfl
  · intro res hres
    rw [hh] at hres
    obtain rfl := Except.ok.inj hres
    exact paginateRows_spec (effectivePageSize args) (listMemos find)
      (effectivePageSize_bounds args).1

/-- Claim C5 witness: concrete arguments with page size 2 produce the
expected find specification, in particular limit 3 and offset 0. -/
theorem C5_pagination_witness :
    listMemosFind 0 wListArgs = Except.ok wFind ∧
    wFind.limit = some (effectivePageSize wListArgs + 1) ∧
    wFind.offset = some (effectivePage wListArgs * effectivePageSize wListArgs) := by
  have h := C5_pagination (fun _ => [wMemo, wMemo, wMemo]) 0 wListArgs wFind rfl
  exact ⟨rfl, h.2.2.2.2.2.1, h.2.2.2.2.2.2.1⟩

/-- Claim C8: a resource identifier without the `memo://memos/` prefix or
with an empty uid is rejected with a resolution error; for a well-formed
identifier the memo is fetched, the read-access check is applied (a denial
is surfaced as the resolution error), and on success the rendered document
is the delimited metadata header — name, creator, visibility, state, pinned
flag, the tag list only when non-empty, creation and update timestamps, and
the parent reference only when present — followed by a blank line and the
raw content body. -/
theorem C8_resource_read (st : StoreState) (userID : Int) :
    (∀ uri : String, (¬ ∃ uid, uid ≠ "" ∧ uri = "memo://memos/" ++ uid) →
      ∃ e, handleReadMemoResource st userID uri = Except.error e) ∧
    (∀ uid memo, uid ≠ "" → getMemoByUID st uid = some memo →
      (∀ e, checkMemoAccess memo userID = some e →
        handleReadMemoResource st userID ("memo://memos/" ++ uid) =
          Except.error e) ∧
      (checkMemoAccess memo userID = none →
        handleReadMemoResource st userID ("memo://memos/" ++ uid) =
          Except.ok (formatMemoMarkdown (storeMemoToJSON memo)))) ∧
    (∀ j : MemoJSON, formatMemoMarkdown j =
      "---\n" ++
      "name: " ++ j.name ++ "\n" ++
      "creator: " ++ j.creator ++ "\n" ++
      "visibility: " ++ j.visibility ++ "\n" ++
      "state: " ++ j.state ++ "\n" ++
      "pinned: " ++ (if j.pinned then "true" else "false") ++ "\n" ++
      (if 0 < j.tags.length then
        "tags: [" ++ String.intercalate ", " j.tags ++ "]\n"
      else "") ++
      "create_time: " ++ toString j.createTime ++ "\n" ++
      "update_time: " ++ toString j.updateTime ++ "\n" ++
      (if j.parent ≠ "" then "parent: " ++ j.parent ++ "\n" else "") ++
      "---\n\n" ++
      j.content) := by
  refine ⟨?_, ?_, fun j => rfl⟩
  · intro uri hbad
    cases hcut : cutPrefix "memo://memos/" uri with
    | none =>
      refine ⟨"invalid memo URI: expected memo://memos/<uid>", ?_⟩
      unfold handleReadMemoResource
      rw [hcut]
    | some uid =>
      have huid : uid = "" := by
        by_contra hne
        exact hbad ⟨uid, hne, eq_append_of_cutPrefix hcut⟩
      subst huid
      refine ⟨"invalid memo URI: expected memo://memos/<uid>", ?_⟩
      unfold handleReadMemoResource
      rw [hcut]
      rfl
  · intro uid memo huid hget
    constructor
    · intro e hacc
      unfold handleReadMemoResource
      rw [cutPrefix_append]
      simp [huid, hget, hacc]
    · intro hacc
      unfold handleReadMemoResource
      rw [cutPrefix_append]
      simp [huid, hget, hacc]

/-- Claim C8 witness: reading `wMemo` through its resource identifier by a
caller allowed to read it yields the rendered document. -/
theorem C8_resource_read_witness :
    handleReadMemoResource wSt 1 ("memo://memos/" ++ "m1") =
      Except.ok (formatMemoMarkdown (storeMemoToJSON wMemo)) :=
  (((C8_resource_read wSt 1).2.1) "m1" wMemo (by decide) (by decide)).2
    (by decide)

/-- A tag occurs in the collected tag stream iff its occurrence count over
the memo list is positive. -/
theorem mem_collectTags_iff (t : String) (memos : List Memo) :
    t ∈ collectTags memos ↔ 0 < tagOccurrences t memos := by
  induction memos with
  | nil => simp [collectTags, tagOccurrences]
  | cons m ms ih =>
    have hc : collectTags (m :: ms) =
        (match m.payload with
         | none => []
         | some p => p.tags) ++ collectTags ms := rfl
    have ho : tagOccurrences t (m :: ms) =
        (match m.payload with
         | none => 0
         | some p => p.tags.count t) + tagOccurrences t ms := by
      simp [tagOccurrences]
    rw [hc, ho]
    cases hp : m.payload with
    | none => simpa using ih
    | some p =>
      simp only [List.mem_append, ih]
      constructor
      · rintro (h | h)
        · have := List.count_pos_iff.mpr h
          omega
        · omega
      · intro h
        by_cases hm : t ∈ p.tags
        · exact Or.inl hm
        · right
          have hz : p.tags.count t = 0 := List.count_eq_zero.mpr hm
          omega

/-- The list-tags comparator is total. -/
theorem tagEntryLE_total (a b : TagEntry) :
    (tagEntryLE a b || tagEntryLE b a) = true := by
  unfold tagEntryLE
  by_cases h : a.count = b.count
  · rw [if_pos h, if_pos h.symm]
    rcases le_total a.tag b.tag with hle | hle
    · rw [decide_eq_true hle]
      rfl
    · rw [decide_eq_true hle]
      simp
  · rw [if_neg h, if_neg (fun hh => h hh.symm)]
    rcases Nat.lt_or_ge b.count a.count with hlt | hge
    · rw [decide_eq_true hlt]
      rfl
    · have : a.count < b.count := lt_of_le_of_ne hge (fun hh => h hh)
      rw [decide_eq_true this]
      simp

/-- The list-tags comparator is transitive. -/
theorem tagEntryLE_trans (a b c : TagEntry) (hab : tagEntryLE a b = true)
    (hbc : tagEntryLE b c = true) : tagEntryLE a c = true := by
  unfold tagEntryLE at *
  by_cases h1 : a.count = b.count <;> by_cases h2 : b.count = c.count
  · rw [if_pos h1] at hab
    rw [if_pos h2] at hbc
    rw [if_pos (h1.trans h2)]
    exact decide_eq_true
      (le_trans (of_decide_eq_true hab) (of_decide_eq_true hbc))
  · rw [if_neg h2] at hbc
    have hcb : c.count < b.count := of_decide_eq_true hbc
    rw [if_neg (by omega)]
    exact decide_eq_true (by omega)
  · rw [if_neg h1] at hab
    have hba : b.count < a.count := of_decide_eq_true hab
    rw [if_neg (by omega)]
    exact decide_eq_true (by omega)
  · rw [if_neg h1] at hab
    rw [if_neg h2] at hbc
    have hba : b.count < a.count := of_decide_eq_true hab
    have hcb : c.count < b.count := of_decide_eq_true hbc
    rw [if_neg (by omega)]
    exact decide_eq_true (by omega)

/-- Claim C9: list-tags returns one entry per distinct tag, sorted by count
descending with ties broken by tag ascending; each entry's count is the
number of occurrences of the tag across the payload tag lists of the
returned memos, every occurring tag appears, and a memo without a payload
contributes nothing. -/
theorem C9_list_tags (memos : List Memo) :
    List.Pairwise (fun a b : TagEntry =>
      b.count < a.count ∨ (a.count = b.count ∧ a.tag < b.tag))
      (handleListTags memos) ∧
    (∀ e ∈ handleListTags memos,
      e.count = tagOccurrences e.tag memos ∧ 0 < e.count) ∧
    (∀ t : String, 0 < tagOccurrences t memos →
      ∃ e ∈ handleListTags memos, e.tag = t) ∧
    (∀ (m : Memo) (ms : List Memo) (t : String), m.payload = none →
      tagOccurrences t (m :: ms) = tagOccurrences t ms) := by
  have hperm : (handleListTags memos).Perm
      ((dedupSeen (collectTags memos) []).map fun t =>
        ({ tag := t, count := tagOccurrences t memos } : TagEntry)) :=
    List.mergeSort_perm _ tagEntryLE
  refine ⟨?_, ?_, ?_, ?_⟩
  · have hsort : List.Pairwise (fun a b => tagEntryLE a b = true)
        (handleListTags memos) :=
      List.sorted_mergeSort tagEntryLE_trans tagEntryLE_total _
    have hnd : (dedupSeen (collectTags memos) []).Nodup :=
      (dedupSeen_nodup_aux _ []).1
    have hptags : List.Pairwise (fun a b : TagEntry => a.tag ≠ b.tag)
        ((dedupSeen (collectTags memos) []).map fun t =>
          ({ tag := t, count := tagOccurrences t memos } : TagEntry)) := by
      rw [List.pairwise_map]
      exact hnd
    have hsymm : ∀ {x y : TagEntry}, x.tag ≠ y.tag → y.tag ≠ x.tag :=
      fun h => h.symm
    have htagsne : List.Pairwise (fun a b : TagEntry => a.tag ≠ b.tag)
        (handleListTags memos) :=
      (hperm.pairwise_iff fun h => hsymm h).mpr hptags
    have himp : ∀ a b : TagEntry,
        (tagEntryLE a b = true ∧ a.tag ≠ b.tag) →
        (b.count < a.count ∨ (a.count = b.count ∧ a.tag < b.tag)) := by
      intro a b hab
      obtain ⟨hle, hne⟩ := hab
      unfold tagEntryLE at hle
      by_cases h : a.count = b.count
      · rw [if_pos h] at hle
        exact Or.inr ⟨h, lt_of_le_of_ne (of_decide_eq_true hle) hne⟩
      · rw [if_neg h] at hle
        exact Or.inl (of_decide_eq_true hle)
    exact (hsort.and htagsne).imp (himp _ _)
  · intro e he
    have he2 := hperm.mem_iff.mp he
    obtain ⟨t, ht, rfl⟩ := List.mem_map.mp he2
    have hcoll : t ∈ collectTags memos :=
      mem_of_mem_dedupSeen _ [] ht
    exact ⟨rfl, (mem_collectTags_iff t memos).mp hcoll⟩
  · intro t ht
    have hcoll : t ∈ collectTags memos := (mem_collectTags_iff t memos).mpr ht
    have hded : t ∈ dedupSeen (collectTags memos) [] :=
      mem_dedupSeen_of_mem _ [] hcoll (List.not_mem_nil t)
    refine ⟨{ tag := t, count := tagOccurrences t memos }, ?_, rfl⟩
    exact hperm.mem_iff.mpr (List.mem_map_of_mem _ hded)
  · intro m ms t hp
    simp [tagOccurrences, hp]

/-- Claim C9 witness: a memo without a payload contributes no tag
occurrences on concrete inputs. -/
theorem C9_list_tags_witness :
    tagOccurrences "work" (wNoPayloadMemo :: [wMemo]) =
      tagOccurrences "work" [wMemo] :=
  (C9_list_tags [wMemo]).2.2.2 wNoPayloadMemo [wMemo] "work" rfl

/-- Claim C2 witness: on the empty find specification, an authenticated
caller's policy clause is appended as the only filter and an anonymous
caller is restricted to the PUBLIC visibility list. -/
theorem C2_visibility_filter_witness :
    (applyVisibilityFilter { } 5).filters = [policyFilter 5] ∧
    (applyVisibilityFilter { } 0).visibilityList = [Public] :=
  ⟨((C2_visibility_filter { } 5 wMemo
      (fun _ mm => mm.creatorID = 5 ∨ mm.visibility = Public ∨
        mm.visibility = Protected)
      Iff.rfl rfl rfl).2.1 (by decide)).2.1,
   ((C2_visibility_filter { } 0 wMemo
      (fun _ mm => mm.creatorID = 0 ∨ mm.visibility = Public ∨
        mm.visibility = Protected)
      Iff.rfl rfl rfl).1 rfl).1⟩

/-- Claim C10 witness: a memo without a payload serializes with an empty
tag list. -/
theorem C10_memoJSON_invariants_witness :
    (storeMemoToJSON wNoPayloadMemo).tags = [] :=
  (C10_memoJSON_invariants wNoPayloadMemo).2.1 rfl

end Memos
